import Mathlib

/-!
Verification of the RiverMapper MPI driver
(src/Utility/Grid_Scripts/Compound_flooding/RiverMapper/RiverMapper/river_map_mpi_driver.py).

The driver distributes thalweg tile groups over MPI ranks with my_mpi_idx
(a wrapper around numpy array_split over range(N)), optionally pre-warms a DEM
tile cache, caches the grouping triple with pickle, runs make_river_map on each
assigned group, and merges the per-rank outputs.  The definitions below are a
shallow embedding of that driver; theorems settle the specification claims.
-/

namespace RiverMapper

/-! ## WorkPartitioner: my_mpi_idx (driver lines 26 to 36)

numpy array_split(range(N), size) computes section sizes
`extras` sections of length `each + 1` followed by `size - extras` sections of
length `each`, where `each, extras = divmod(N, size)`, and slices range(N) at
the cumulative division points.  splitSizes performs exactly that slicing. -/

/-- Slicing of range(N) at the cumulative division points of a section-size
list: each section is the next run of consecutive integers, of the listed
length, starting where the previous section ended. -/
def splitSizes (start : Nat) : List Nat → List (List Nat)
  | [] => []
  | s :: rest => List.range' start s :: splitSizes (start + s) rest

/-- Section sizes used by numpy array_split: `N % size` sections of length
`N / size + 1` followed by `size - N % size` sections of length `N / size`. -/
def sectionSizes (N size : Nat) : List Nat :=
  List.replicate (N % size) (N / size + 1) ++ List.replicate (size - N % size) (N / size)

/-- Embedding of np.array_split(range(N), size). -/
def array_split (N size : Nat) : List (List Nat) :=
  splitSizes 0 (sectionSizes N size)

/-- Embedding of the fancy-index assignment `i_my_groups[my_group_ids] = True`:
set every listed position of the boolean vector to true. -/
def setTrues (v : List Bool) (ids : List Nat) : List Bool :=
  ids.foldl (fun w j => w.set j true) v

/-- Embedding of my_mpi_idx (driver lines 26 to 36): distribute N tasks to
`size` ranks; returns the rank's index list together with the boolean mask of
shape (N,) that is true at exactly the assigned indices. -/
def my_mpi_idx (N size rank : Nat) : List Nat × List Bool :=
  let groups := array_split N size
  let my_group_ids := groups.getD rank []
  let i_my_groups := setTrues (List.replicate N false) my_group_ids
  (my_group_ids, i_my_groups)

/-- First index handled by a rank: the cumulative size of all earlier ranks'
sections. -/
def sliceStart (N size rank : Nat) : Nat :=
  rank * (N / size) + min rank (N % size)

/-- Number of indices handled by a rank: the base share `N / size` plus one
extra for the first `N % size` ranks. -/
def sliceLen (N size rank : Nat) : Nat :=
  N / size + (if rank < N % size then 1 else 0)

/-! ## Grouping cache load (driver lines 127 to 149)

The driver opens the pickle cache file inside a try block whose only except
clause catches FileNotFoundError; a successful load binds the grouping triple,
absence leaves the triple None so find_thalweg_tile recomputes it, and any
other exception raised while reading or unpickling propagates out of
river_map_mpi_driver. -/

/-- Possible outcomes of opening and unpickling the grouping cache file. -/
inductive CacheRead (α : Type) : Type where
  | absent : CacheRead α
  | corrupt : CacheRead α
  | found : α → CacheRead α

/-- Embedding of the try/except at driver lines 132 to 137: a successful read
yields the stored triple, a missing file is caught (FileNotFoundError) and
yields None, and any other read or unpickling failure propagates as an
uncaught exception. -/
def load_grouping_cache {α : Type} : CacheRead α → Except String (Option α)
  | CacheRead.found v => Except.ok (some v)
  | CacheRead.absent => Except.ok none
  | CacheRead.corrupt => Except.error "pickle.UnpicklingError"

/-- Embedding of the grouping phase, driver lines 127 to 149, with
i_grouping_cache hardcoded true: use the cached triple when the load returns
one, recompute (the find_thalweg_tile result is the fresh parameter) when the
cache is absent, and propagate any other load failure. -/
def grouping_phase_result {α : Type} (read : CacheRead α) (fresh : α) :
    Except String α :=
  match load_grouping_cache read with
  | Except.error e => Except.error e
  | Except.ok (some v) => Except.ok v
  | Except.ok none => Except.ok fresh

/-! ## Grouping cache persistence and round trip (driver lines 127 to 149)

The pickle file on disk is modeled as an association of cache file name to the
stored grouping triple; stdlib pickle round-trips these list and tuple values
faithfully, so dump followed by load returns the stored value. -/

/-- The grouping triple computed by find_thalweg_tile: thalwegs2tile_groups,
tile_groups_files and tile_groups2thalwegs.  Tile file entries may be None,
hence Option. -/
abbrev GroupingTriple :=
  List Nat × List (List (Option String)) × List (List Nat)

/-- Cache directory contents: association of cache file name to stored
triple. -/
def CacheStore : Type := List (String × GroupingTriple)

/-- pickle.dump of the triple into the named cache file (driver lines 148
to 149). -/
def cache_dump (s : CacheStore) (k : String) (v : GroupingTriple) : CacheStore :=
  (k, v) :: s

/-- pickle.load from the named cache file (driver line 135), None when the
file is absent. -/
def cache_load (s : CacheStore) (k : String) : Option GroupingTriple :=
  (List.find? (fun p => p.1 == k) s).map fun p => p.2

/-- Embedding of the grouping phase as a state transformer on the cache
directory: on a cache value use it unchanged; on absence use the freshly
computed triple and persist it. -/
def grouping_phase_cached (s : CacheStore) (k : String) (fresh : GroupingTriple) :
    GroupingTriple × CacheStore :=
  match cache_load s k with
  | some t => (t, s)
  | none => (fresh, cache_dump s k fresh)

/-! ## merge_outputs (driver lines 38 to 53)

Each discovered partial file is modeled by its parsed feature list.  The five
map categories go through merge_maps of RiverMapper.SMS; the two shapefile
categories go through pandas concat of the geopandas frames read from the
globbed files, which raises ValueError when the glob matched no file. -/

/-- Modelled from the spec: merge_maps of RiverMapper.SMS is not under src/;
per the spec, line-network files of one category are unioned into one network
and unioning an empty set of files is errorless and yields an empty merged
result. -/
def merge_maps (files : List (List Nat)) : List Nat := files.flatten

/-- pandas concat applied to the frames read from the globbed shapefiles:
raises ValueError when the list is empty, otherwise concatenates the
frames. -/
def pd_concat (frames : List (List Nat)) : Except String (List Nat) :=
  if frames.isEmpty then Except.error "ValueError: No objects to concatenate"
  else Except.ok frames.flatten

/-- The partial files matched in the output directory by each of the seven
glob patterns of merge_outputs, in source order. -/
structure OutputMatches : Type where
  total_arcs : List (List Nat)
  intersection_joints : List (List Nat)
  river_arcs : List (List Nat)
  centerlines : List (List Nat)
  bank_final : List (List Nat)
  river_outline : List (List Nat)
  bomb : List (List Nat)

/-- Embedding of merge_outputs, driver lines 38 to 53: merge the five map
categories with merge_maps, then concatenate the two shapefile categories
with pandas concat (an exception there propagates); returns total_map and
total_intersection_joints as the driver does. -/
def merge_outputs (d : OutputMatches) : Except String (List Nat × List Nat) :=
  let total_map := merge_maps d.total_arcs
  let joints := merge_maps d.intersection_joints
  let _river_arcs := merge_maps d.river_arcs
  let _centerlines := merge_maps d.centerlines
  let _banks := merge_maps d.bank_final
  match pd_concat d.river_outline with
  | Except.error e => Except.error e
  | Except.ok _outline =>
    match pd_concat d.bomb with
    | Except.error e => Except.error e
    | Except.ok _bomb => Except.ok (total_map, joints)

/-! ## DEM tile cache pre-warm phase (driver lines 167 to 181) -/

/-- Hardcoded flag from driver line 109: iValidateCache = False. -/
def iValidateCache : Bool := false

/-- Embedding of the deduplication loop, driver lines 168 to 172: collect, in
first-seen order, every tile file that is not None and not collected yet. -/
def unique_tile_files (tile_groups_files : List (List (Option String))) :
    List String :=
  tile_groups_files.foldl
    (fun acc group =>
      group.foldl
        (fun acc2 file =>
          match file with
          | none => acc2
          | some f => if f ∈ acc2 then acc2 else acc2 ++ [f])
        acc)
    []

/-- Boolean-mask selection of a list, as numpy fancy indexing with a bool
vector would do. -/
def maskSelect (u : List String) (mask : List Bool) : List String :=
  (u.zip mask).filterMap fun p => if p.2 then some p.1 else none

/-- Embedding of the DEM cache phase, driver lines 167 to 181: the tile files
the given rank passes to Tif2XYZ.  When i_DEM_cache holds, the deduplicated
tile list is built, but the parse loop is additionally guarded by
iValidateCache, which is hardcoded false at line 109.  (The source indexes
unique_tile_files with the whole pair returned by my_mpi_idx; the intended
boolean-mask selection is modeled, and the guarded branch is unreachable
anyway.) -/
def dem_cache_prewarmed (i_DEM_cache : Bool)
    (tile_groups_files : List (List (Option String))) (size rank : Nat) :
    List String :=
  if i_DEM_cache then
    let u := unique_tile_files tile_groups_files
    if iValidateCache then maskSelect u (my_mpi_idx u.length size rank).2
    else []
  else []

/-! ## Output name built at driver line 207

Each call of make_river_map receives output_prefix equal to the f-string
Group_ followed by the global group id, the rank and the local ordinal, each
separated and terminated by an underscore.  Python str of a nonnegative int is
its decimal digit string; it is embedded below together with the f-string. -/

/-- The underscore separator character, code point 95. -/
def usep : Char := Char.ofNat 95

/-- Decimal digit character: code point 48 plus the digit value, as Python
str(int) produces. -/
def digitChar (d : Nat) : Char := Char.ofNat (48 + d)

/-- Digit accumulator of Python str(n): prepend the last decimal digit and
recurse on the leading digits. -/
def natDecAux : Nat → List Char → List Char
  | 0, acc => acc
  | n + 1, acc => natDecAux ((n + 1) / 10) (digitChar ((n + 1) % 10) :: acc)
decreasing_by exact Nat.div_lt_self (Nat.succ_pos n) (by decide)

/-- Python str(n) for a natural number, as a character list. -/
def natDec (n : Nat) : List Char :=
  if n = 0 then [digitChar 0] else natDecAux n []

/-- Character list of the output name of driver line 207: Group_ then the
global group id, the rank and the local ordinal, underscore separated and
terminated. -/
def output_name (gid rank i : Nat) : List Char :=
  "Group_".toList ++ natDec gid ++ usep :: (natDec rank ++ usep :: (natDec i ++ [usep]))

/-- The output name as the Python string passed to make_river_map. -/
def output_name_str (gid rank i : Nat) : String :=
  String.mk (output_name gid rank i)

/-- Decimal value accumulation step: previous value times ten plus the digit
encoded by the character. -/
def decStep (a : Nat) (c : Char) : Nat := a * 10 + (c.toNat - 48)

/-- Decimal value of a digit string; parses back what natDec printed. -/
def decVal (l : List Char) : Nat := l.foldl decStep 0

/-! ## GroupProcessor loop (driver lines 198 to 213) -/

/-- Arguments of one make_river_map invocation issued by the loop at driver
lines 198 to 209 (the ones the claims are about: the group's tile files, its
thalweg indices, and the collision-avoiding output name). -/
structure RiverMapCall : Type where
  tif_fnames : List (Option String)
  selected_thalweg : List Nat
  out_name : List Char

/-- Embedding of the per-rank processing loop, driver lines 198 to 213: for
each enumerated element of zip(my_group_ids, my_tile_groups,
my_tile_groups_thalwegs) the always-true guard at line 201 is taken and
make_river_map is invoked with that group's tile files (possibly the empty
list), its thalwegs, and the output name. -/
def process_groups (rank : Nat) (ids : List Nat)
    (tgs : List (List (Option String))) (ths : List (List Nat)) :
    List RiverMapCall :=
  ((ids.zip (tgs.zip ths)).enum).flatMap fun p =>
    if true then
      [{ tif_fnames := p.2.2.1, selected_thalweg := p.2.2.2,
         out_name := output_name p.2.1 rank p.1 }]
    else []

theorem splitSizes_length (sizes : List Nat) (start : Nat) :
    (splitSizes start sizes).length = sizes.length := by
  induction sizes generalizing start with
  | nil => rfl
  | cons s rest ih => simp [splitSizes, ih]

theorem splitSizes_flatten (sizes : List Nat) (start : Nat) :
    (splitSizes start sizes).flatten = List.range' start sizes.sum := by
  induction sizes generalizing start with
  | nil => simp [splitSizes]
  | cons s rest ih =>
    simp only [splitSizes, List.flatten_cons, ih, List.sum_cons]
    have h := List.range'_append start s rest.sum 1
    simpa [Nat.add_comm] using h

theorem splitSizes_getD (sizes : List Nat) (start k : Nat) :
    (splitSizes start sizes).getD k [] =
      List.range' (start + (sizes.take k).sum) (sizes.getD k 0) := by
  induction sizes generalizing start k with
  | nil => simp [splitSizes]
  | cons s rest ih =>
    cases k with
    | zero => simp [splitSizes]
    | succ k =>
      simp only [splitSizes, List.getD_cons_succ, List.take_succ_cons,
        List.sum_cons, ih (start + s) k]
      rw [Nat.add_assoc]

theorem sectionSizes_length (N size : Nat) (h : 1 ≤ size) :
    (sectionSizes N size).length = size := by
  have hq : N % size ≤ size := Nat.le_of_lt (Nat.mod_lt _ h)
  simp [sectionSizes, Nat.add_sub_cancel' hq]

theorem sectionSizes_sum (N size : Nat) (h : 1 ≤ size) :
    (sectionSizes N size).sum = N := by
  have hq : N % size ≤ size := Nat.le_of_lt (Nat.mod_lt _ h)
  have hql : N % size * (N / size) ≤ size * (N / size) :=
    Nat.mul_le_mul_right _ hq
  have key : N % size * (N / size + 1) + (size - N % size) * (N / size) =
      size * (N / size) + N % size := by
    rw [Nat.mul_add, Nat.mul_one, Nat.sub_mul]
    omega
  simp only [sectionSizes, List.sum_append, List.sum_replicate, smul_eq_mul]
  rw [key]
  exact Nat.div_add_mod N size

theorem sectionSizes_getD (N size k : Nat) (h : 1 ≤ size) (hk : k < size) :
    (sectionSizes N size).getD k 0 = N / size + (if k < N % size then 1 else 0) := by
  have hb : k < (sectionSizes N size).length := by
    rw [sectionSizes_length N size h]; exact hk
  rw [List.getD_eq_getElem _ _ hb]
  rcases Nat.lt_or_ge k (N % size) with hc | hc
  · have hlt : k < (List.replicate (N % size) (N / size + 1)).length := by simpa using hc
    simp only [sectionSizes]
    rw [List.getElem_append_left hlt]
    simp [hc]
  · have hge : (List.replicate (N % size) (N / size + 1)).length ≤ k := by simpa using hc
    simp only [sectionSizes]
    rw [List.getElem_append_right hge]
    simp [Nat.not_lt.mpr hc]

theorem sectionSizes_take_sum (N size k : Nat) (hk : k ≤ size) :
    ((sectionSizes N size).take k).sum = k * (N / size) + min k (N % size) := by
  rcases Nat.lt_or_ge k (N % size) with hc | hc
  · have htake : (sectionSizes N size).take k = List.replicate k (N / size + 1) := by
      rw [sectionSizes, List.take_append_eq_append_take, List.take_replicate,
        List.length_replicate]
      have h1 : min k (N % size) = k := Nat.min_eq_left (Nat.le_of_lt hc)
      have h2 : k - N % size = 0 := Nat.sub_eq_zero_of_le (Nat.le_of_lt hc)
      rw [h1, h2]
      simp
    rw [htake, List.sum_replicate, smul_eq_mul, Nat.min_eq_left (Nat.le_of_lt hc)]
    ring
  · have htake : (sectionSizes N size).take k =
        List.replicate (N % size) (N / size + 1) ++
          List.replicate (k - N % size) (N / size) := by
      rw [sectionSizes, List.take_append_eq_append_take, List.take_replicate,
        List.length_replicate, List.take_replicate]
      have h1 : min k (N % size) = N % size := Nat.min_eq_right hc
      have h2 : min (k - N % size) (size - N % size) = k - N % size :=
        Nat.min_eq_left (Nat.sub_le_sub_right hk _)
      rw [h1, h2]
    have hql : N % size * (N / size) ≤ k * (N / size) :=
      Nat.mul_le_mul_right _ hc
    rw [htake, List.sum_append, List.sum_replicate, List.sum_replicate,
      smul_eq_mul, smul_eq_mul, Nat.min_eq_right hc, Nat.mul_add, Nat.mul_one,
      Nat.sub_mul]
    omega

theorem array_split_length (N size : Nat) (h : 1 ≤ size) :
    (array_split N size).length = size := by
  rw [array_split, splitSizes_length, sectionSizes_length N size h]

theorem my_mpi_idx_ids_eq (N size rank : Nat) (h : 1 ≤ size) (hr : rank < size) :
    (my_mpi_idx N size rank).1 =
      List.range' (sliceStart N size rank) (sliceLen N size rank) := by
  show (splitSizes 0 (sectionSizes N size)).getD rank [] = _
  rw [splitSizes_getD, sectionSizes_take_sum N size rank (Nat.le_of_lt hr),
    sectionSizes_getD N size rank h hr, Nat.zero_add]
  rfl

theorem my_mpi_idx_ids_length (N size rank : Nat) (h : 1 ≤ size) (hr : rank < size) :
    (my_mpi_idx N size rank).1.length = sliceLen N size rank := by
  rw [my_mpi_idx_ids_eq N size rank h hr, List.length_range']

theorem sliceStart_succ (N size rank : Nat) :
    sliceStart N size (rank + 1) = sliceStart N size rank + sliceLen N size rank := by
  unfold sliceStart sliceLen
  generalize N / size = l
  generalize N % size = q
  rcases Nat.lt_or_ge rank q with hc | hc
  · rw [if_pos hc, Nat.succ_mul, Nat.min_eq_left (Nat.succ_le_of_lt hc),
      Nat.min_eq_left (Nat.le_of_lt hc)]
    generalize rank * l = a
    omega
  · rw [if_neg (Nat.not_lt.mpr hc), Nat.succ_mul, Nat.min_eq_right hc,
      Nat.min_eq_right (Nat.le_succ_of_le hc)]
    generalize rank * l = a
    omega

theorem sliceStart_mono (N size : Nat) {r1 r2 : Nat} (h : r1 ≤ r2) :
    sliceStart N size r1 ≤ sliceStart N size r2 := by
  induction r2 with
  | zero =>
    have : r1 = 0 := Nat.le_zero.mp h
    simp [this]
  | succ r ih =>
    rcases Nat.lt_or_ge r1 (r + 1) with hc | hc
    · have h1 := ih (Nat.lt_succ_iff.mp hc)
      rw [sliceStart_succ]
      omega
    · have : r1 = r + 1 := Nat.le_antisymm h hc
      simp [this]

theorem sliceStart_size (N size : Nat) (h : 1 ≤ size) :
    sliceStart N size size = N := by
  unfold sliceStart
  have hq : N % size < size := Nat.mod_lt _ h
  rw [Nat.min_eq_right (Nat.le_of_lt hq)]
  exact Nat.div_add_mod N size

theorem slice_end_le (N size rank : Nat) (h : 1 ≤ size) (hr : rank < size) :
    sliceStart N size rank + sliceLen N size rank ≤ N := by
  rw [← sliceStart_succ]
  have := sliceStart_mono N size (Nat.succ_le_of_lt hr)
  rw [sliceStart_size N size h] at this
  exact this

theorem array_split_map_getD (N size : Nat) (h : 1 ≤ size) :
    ((List.range size).map fun r => (array_split N size).getD r []) = array_split N size := by
  apply List.ext_getElem
  · simp [array_split_length N size h]
  · intro n h1 h2
    simp only [List.getElem_map, List.getElem_range]
    exact List.getD_eq_getElem _ _ h2

theorem my_mpi_idx_flatMap (N size : Nat) (h : 1 ≤ size) :
    ((List.range size).flatMap fun r => (my_mpi_idx N size r).1) = List.range N := by
  have hf : ((List.range size).flatMap fun r => (my_mpi_idx N size r).1) =
      ((List.range size).map fun r => (array_split N size).getD r []).flatten := by
    rw [List.flatMap_def]
    rfl
  rw [hf, array_split_map_getD N size h, array_split, splitSizes_flatten,
    sectionSizes_sum N size h, ← List.range_eq_range']

theorem my_mpi_idx_disjoint_lt (N size : Nat) (h : 1 ≤ size) {r1 r2 : Nat}
    (h1 : r1 < size) (h2 : r2 < size) (hlt : r1 < r2) :
    ∀ j, j ∈ (my_mpi_idx N size r1).1 → j ∉ (my_mpi_idx N size r2).1 := by
  intro j hj1 hj2
  rw [my_mpi_idx_ids_eq N size r1 h h1, List.mem_range'_1] at hj1
  rw [my_mpi_idx_ids_eq N size r2 h h2, List.mem_range'_1] at hj2
  have hs : sliceStart N size r1 + sliceLen N size r1 ≤ sliceStart N size r2 := by
    rw [← sliceStart_succ]
    exact sliceStart_mono N size hlt
  omega

/-! ## Boolean mask lemmas for the second return value of my_mpi_idx -/

theorem setTrues_length (v : List Bool) (ids : List Nat) :
    (setTrues v ids).length = v.length := by
  induction ids generalizing v with
  | nil => rfl
  | cons i rest ih =>
    show (setTrues (v.set i true) rest).length = v.length
    rw [ih (v.set i true), List.length_set]

theorem setTrues_getD (v : List Bool) (ids : List Nat) (j : Nat) (hj : j < v.length) :
    (setTrues v ids).getD j false = (v.getD j false || decide (j ∈ ids)) := by
  induction ids generalizing v with
  | nil => simp [setTrues]
  | cons i rest ih =>
    show (setTrues (v.set i true) rest).getD j false = _
    rw [ih (v.set i true) (by rw [List.length_set]; exact hj)]
    have hset : (v.set i true).getD j false = (v.getD j false || decide (i = j)) := by
      rw [List.getD_eq_getElem _ _ (by rw [List.length_set]; exact hj),
        List.getElem_set, List.getD_eq_getElem _ _ hj]
      by_cases hij : i = j
      · simp [hij]
      · simp [hij]
    rw [hset]
    by_cases hij : i = j
    · subst hij
      simp
    · simp [List.mem_cons, Ne.symm hij, hij]

theorem my_mpi_idx_mask_getD (N size rank : Nat) (j : Nat) (hj : j < N) :
    (my_mpi_idx N size rank).2.getD j false =
      decide (j ∈ (my_mpi_idx N size rank).1) := by
  show (setTrues (List.replicate N false) ((array_split N size).getD rank [])).getD j false = _
  rw [setTrues_getD _ _ j (by rw [List.length_replicate]; exact hj),
    List.getD_eq_getElem _ _ (by rw [List.length_replicate]; exact hj),
    List.getElem_replicate, Bool.false_or]
  rfl

/-! ## Claims C1, C2, C9, C10 about the partition function -/

/-- C1: for every N and size with size at least 1, the per-rank index lists of
my_mpi_idx for ranks 0..size-1 concatenate, in rank order, to exactly
List.range N, so every index 0..N-1 is assigned exactly once (no gaps, no
duplicates), and the index lists of two distinct ranks are pairwise disjoint. -/
theorem claim_C1_partition_coverage (N size : Nat) (hsize : 1 ≤ size) :
    ((List.range size).flatMap fun r => (my_mpi_idx N size r).1) = List.range N ∧
    ∀ r1 r2, r1 < size → r2 < size → r1 ≠ r2 →
      ∀ j, j ∈ (my_mpi_idx N size r1).1 → j ∉ (my_mpi_idx N size r2).1 := by
  refine ⟨my_mpi_idx_flatMap N size hsize, ?_⟩
  intro r1 r2 h1 h2 hne j hj1 hj2
  rcases Nat.lt_or_ge r1 r2 with hlt | hge
  · exact my_mpi_idx_disjoint_lt N size hsize h1 h2 hlt j hj1 hj2
  · have hlt2 : r2 < r1 := Nat.lt_of_le_of_ne hge fun e => hne e.symm
    exact my_mpi_idx_disjoint_lt N size hsize h2 h1 hlt2 j hj2 hj1

/-- Witness for C1 at N = 7, size = 3. -/
theorem claim_C1_partition_coverage_witness :
    1 ≤ 3 ∧
    (((List.range 3).flatMap fun r => (my_mpi_idx 7 3 r).1) = List.range 7 ∧
      ∀ r1 r2, r1 < 3 → r2 < 3 → r1 ≠ r2 →
        ∀ j, j ∈ (my_mpi_idx 7 3 r1).1 → j ∉ (my_mpi_idx 7 3 r2).1) :=
  ⟨by decide, claim_C1_partition_coverage 7 3 (by decide)⟩

/-- C2: for every N, size at least 1 and rank below size, the rank's index list
is the contiguous run of integers starting at
rank * (N / size) + min rank (N % size) with length N / size plus one extra
element exactly when rank < N % size (remainder given to the earliest ranks);
the run stays inside 0..N-1; and any two ranks' list lengths differ by at most
one. -/
theorem claim_C2_partition_contiguous_balanced (N size rank : Nat)
    (hsize : 1 ≤ size) (hrank : rank < size) :
    (my_mpi_idx N size rank).1 =
      List.range' (rank * (N / size) + min rank (N % size))
        (N / size + if rank < N % size then 1 else 0) ∧
    rank * (N / size) + min rank (N % size) +
        (N / size + if rank < N % size then 1 else 0) ≤ N ∧
    ∀ r1 r2, r1 < size → r2 < size →
      (my_mpi_idx N size r1).1.length ≤ (my_mpi_idx N size r2).1.length + 1 := by
  refine ⟨my_mpi_idx_ids_eq N size rank hsize hrank,
    slice_end_le N size rank hsize hrank, ?_⟩
  intro r1 r2 h1 h2
  rw [my_mpi_idx_ids_length N size r1 hsize h1,
    my_mpi_idx_ids_length N size r2 hsize h2]
  unfold sliceLen
  generalize N / size = l
  generalize N % size = q
  split_ifs <;> omega

/-- Witness for C2 at N = 7, size = 3, rank = 1. -/
theorem claim_C2_partition_contiguous_balanced_witness :
    (1 ≤ 3 ∧ 1 < 3) ∧
    ((my_mpi_idx 7 3 1).1 =
      List.range' (1 * (7 / 3) + min 1 (7 % 3)) (7 / 3 + if 1 < 7 % 3 then 1 else 0) ∧
    1 * (7 / 3) + min 1 (7 % 3) + (7 / 3 + if 1 < 7 % 3 then 1 else 0) ≤ 7 ∧
    ∀ r1 r2, r1 < 3 → r2 < 3 →
      (my_mpi_idx 7 3 r1).1.length ≤ (my_mpi_idx 7 3 r2).1.length + 1) :=
  ⟨⟨by decide, by decide⟩,
    claim_C2_partition_contiguous_balanced 7 3 1 (by decide) (by decide)⟩

/-- C9: my_mpi_idx is deterministic: two calls with equal arguments N, size and
rank return equal results, so every rank can compute its assignment
independently and all ranks agree without communication. -/
theorem claim_C9_partition_deterministic (N size rank N2 size2 rank2 : Nat)
    (hN : N = N2) (hs : size = size2) (hr : rank = rank2) :
    my_mpi_idx N size rank = my_mpi_idx N2 size2 rank2 := by
  subst hN
  subst hs
  subst hr
  rfl

/-- Witness for C9 at N = 7, size = 3, rank = 1. -/
theorem claim_C9_partition_deterministic_witness :
    (7 = 7 ∧ 3 = 3 ∧ 1 = 1) ∧ my_mpi_idx 7 3 1 = my_mpi_idx 7 3 1 :=
  ⟨⟨rfl, rfl, rfl⟩, claim_C9_partition_deterministic 7 3 1 7 3 1 rfl rfl rfl⟩

/-- C10: the two return values of my_mpi_idx are mutually consistent: the
boolean mask has length N and holds true at position j exactly when j occurs
in the returned index list. -/
theorem claim_C10_mask_consistency (N size rank : Nat)
    (_hsize : 1 ≤ size) (_hrank : rank < size) :
    (my_mpi_idx N size rank).2.length = N ∧
    ∀ j, j < N →
      ((my_mpi_idx N size rank).2.getD j false = true ↔
        j ∈ (my_mpi_idx N size rank).1) := by
  constructor
  · show (setTrues (List.replicate N false) _).length = N
    rw [setTrues_length, List.length_replicate]
  · intro j hj
    rw [my_mpi_idx_mask_getD N size rank j hj]
    exact decide_eq_true_iff

/-- Witness for C10 at N = 5, size = 2, rank = 1. -/
theorem claim_C10_mask_consistency_witness :
    (1 ≤ 2 ∧ 1 < 2) ∧
    ((my_mpi_idx 5 2 1).2.length = 5 ∧
      ∀ j, j < 5 →
        ((my_mpi_idx 5 2 1).2.getD j false = true ↔ j ∈ (my_mpi_idx 5 2 1).1)) :=
  ⟨⟨by decide, by decide⟩, claim_C10_mask_consistency 5 2 1 (by decide) (by decide)⟩

/-! ## Claims C3 (cache load errors) and C6 (cache round trip) -/

/-- C3 counterexample: with the grouping cache file present but corrupt, the
grouping phase does not fall back to recomputation: only FileNotFoundError is
caught, so the unpickling failure propagates and the run aborts. -/
theorem claim_C3_counterexample :
    grouping_phase_result (CacheRead.corrupt : CacheRead Nat) 0 =
      Except.error "pickle.UnpicklingError" := rfl

/-- C3 amended: absence of the grouping cache file is not fatal, the driver
falls back to the freshly computed grouping; but corrupt or unreadable cache
content is fatal, because only FileNotFoundError is caught and any other load
failure propagates out of the driver. -/
theorem claim_C3_cache_absence_fallback {α : Type} (fresh : α) :
    grouping_phase_result CacheRead.absent fresh = Except.ok fresh ∧
    grouping_phase_result CacheRead.corrupt fresh =
      Except.error "pickle.UnpicklingError" :=
  ⟨rfl, rfl⟩

/-- C6: persisting the freshly computed grouping triple and reloading it
returns exactly that triple, and when the cache starts absent, a first run
computes and persists the triple while a second run starting from the first
run's cache uses a triple identical to the first run's. -/
theorem claim_C6_grouping_cache_round_trip (s : CacheStore) (k : String)
    (fresh : GroupingTriple) (h : cache_load s k = none) :
    cache_load (cache_dump s k fresh) k = some fresh ∧
    (grouping_phase_cached s k fresh).1 = fresh ∧
    (grouping_phase_cached (grouping_phase_cached s k fresh).2 k fresh).1 =
      (grouping_phase_cached s k fresh).1 := by
  have hload : cache_load (cache_dump s k fresh) k = some fresh := by
    unfold cache_load cache_dump
    rw [List.find?_cons_of_pos]
    · rfl
    · simp
  have h1 : grouping_phase_cached s k fresh = (fresh, cache_dump s k fresh) := by
    unfold grouping_phase_cached
    rw [h]
  refine ⟨hload, by rw [h1], ?_⟩
  rw [h1]
  show (grouping_phase_cached (cache_dump s k fresh) k fresh).1 = fresh
  unfold grouping_phase_cached
  rw [hload]

/-- Witness for C6 on an empty cache directory. -/
theorem claim_C6_grouping_cache_round_trip_witness :
    cache_load ([] : CacheStore) "dems.json_thalwegs.shp_grouping.cache" = none ∧
    (cache_load
        (cache_dump [] "dems.json_thalwegs.shp_grouping.cache" ([], [], []))
        "dems.json_thalwegs.shp_grouping.cache" = some ([], [], []) ∧
      (grouping_phase_cached [] "dems.json_thalwegs.shp_grouping.cache"
          ([], [], [])).1 = ([], [], []) ∧
      (grouping_phase_cached
          (grouping_phase_cached [] "dems.json_thalwegs.shp_grouping.cache"
            ([], [], [])).2
          "dems.json_thalwegs.shp_grouping.cache" ([], [], [])).1 =
        (grouping_phase_cached [] "dems.json_thalwegs.shp_grouping.cache"
          ([], [], [])).1) :=
  ⟨rfl, claim_C6_grouping_cache_round_trip [] _ _ rfl⟩

/-! ## Claim C4 (merge of empty categories) -/

/-- C4 counterexample: a run in which every category has one matching partial
file except river_outline, which has zero: merge_outputs raises the pandas
ValueError instead of producing a valid empty merged artifact. -/
theorem claim_C4_counterexample :
    merge_outputs ⟨[[0]], [[0]], [[0]], [[0]], [[0]], [], [[0]]⟩ =
      Except.error "ValueError: No objects to concatenate" := rfl

/-- C4 amended: the five map categories tolerate zero matching files, but each
of the two shapefile categories needs at least one matching file: the merge
succeeds under that condition, and whenever either shapefile category
(river_outline or bomb polygons) matches zero files the merge fails with the
pandas ValueError. -/
theorem claim_C4_shapefile_categories_required (d : OutputMatches)
    (h1 : d.river_outline ≠ []) (h2 : d.bomb ≠ []) :
    merge_outputs d =
      Except.ok (merge_maps d.total_arcs, merge_maps d.intersection_joints) ∧
    (∀ m1 m2 m3 m4 m5 mb,
      merge_outputs ⟨m1, m2, m3, m4, m5, [], mb⟩ =
        Except.error "ValueError: No objects to concatenate") ∧
    ∀ m1 m2 m3 m4 m5 mo, mo ≠ ([] : List (List Nat)) →
      merge_outputs ⟨m1, m2, m3, m4, m5, mo, []⟩ =
        Except.error "ValueError: No objects to concatenate" := by
  refine ⟨?_, ?_, ?_⟩
  · have e1 : d.river_outline.isEmpty = false := by
      simp [List.isEmpty_iff, h1]
    have e2 : d.bomb.isEmpty = false := by
      simp [List.isEmpty_iff, h2]
    unfold merge_outputs pd_concat
    rw [e1, e2]
    rfl
  · intro m1 m2 m3 m4 m5 mb
    rfl
  · intro m1 m2 m3 m4 m5 mo hmo
    have e1 : mo.isEmpty = false := by
      simp [List.isEmpty_iff, hmo]
    unfold merge_outputs pd_concat
    rw [e1]
    rfl

/-- Witness for C4 amended: empty map categories with one shapefile match per
shapefile category still merge successfully. -/
theorem claim_C4_shapefile_categories_required_witness :
    (([[1]] : List (List Nat)) ≠ [] ∧ ([[2]] : List (List Nat)) ≠ []) ∧
    (merge_outputs ⟨[], [], [], [], [], [[1]], [[2]]⟩ =
        Except.ok (merge_maps [], merge_maps []) ∧
      (∀ m1 m2 m3 m4 m5 mb,
        merge_outputs ⟨m1, m2, m3, m4, m5, [], mb⟩ =
          Except.error "ValueError: No objects to concatenate") ∧
      ∀ m1 m2 m3 m4 m5 mo, mo ≠ ([] : List (List Nat)) →
        merge_outputs ⟨m1, m2, m3, m4, m5, mo, []⟩ =
          Except.error "ValueError: No objects to concatenate") :=
  ⟨⟨by decide, by decide⟩,
    claim_C4_shapefile_categories_required ⟨[], [], [], [], [], [[1]], [[2]]⟩
      (by decide) (by decide)⟩

/-! ## Claim C5 (DEM cache pre-warm) -/

/-- C5 counterexample: DEM caching enabled, one worker, one needed tile file:
the deduplicated tile list contains the file, yet the worker pre-parses
nothing, because the parse loop is additionally guarded by iValidateCache,
hardcoded false at driver line 109. -/
theorem claim_C5_counterexample :
    unique_tile_files [[some "a.tif"]] = ["a.tif"] ∧
    dem_cache_prewarmed true [[some "a.tif"]] 1 0 = [] := by
  refine ⟨?_, rfl⟩
  decide

/-- C5 amended: when DEM caching is enabled the deduplicated tile-file list is
computed, but the pre-warm pass is disabled by the hardcoded iValidateCache
flag, so no rank pre-parses any tile file: the pre-warmed list is always
empty. -/
theorem claim_C5_no_prewarm (i_DEM_cache : Bool)
    (tile_groups_files : List (List (Option String))) (size rank : Nat) :
    dem_cache_prewarmed i_DEM_cache tile_groups_files size rank = [] := by
  unfold dem_cache_prewarmed
  cases i_DEM_cache <;> simp [iValidateCache]

/-! ## Decimal string lemmas for claim C7 -/

theorem natDecAux_append (n : Nat) :
    ∀ acc : List Char, natDecAux n acc = natDecAux n [] ++ acc := by
  induction n using Nat.strong_induction_on with
  | _ n ih =>
    intro acc
    rcases n with _ | m
    · simp [natDecAux]
    · have hlt : (m + 1) / 10 < m + 1 := Nat.div_lt_self (Nat.succ_pos m) (by decide)
      simp only [natDecAux]
      rw [ih _ hlt (digitChar ((m + 1) % 10) :: acc),
        ih _ hlt [digitChar ((m + 1) % 10)]]
      simp

theorem digitChar_toNat (d : Nat) (h : d < 10) : (digitChar d).toNat = 48 + d := by
  interval_cases d <;> decide

theorem digitChar_ne_usep (d : Nat) (h : d < 10) : digitChar d ≠ usep := by
  interval_cases d <;> decide

theorem decVal_natDecAux (n : Nat) (h : 0 < n) :
    decVal (natDecAux n []) = n := by
  induction n using Nat.strong_induction_on with
  | _ n ih =>
    rcases n with _ | m
    · simp at h
    · have hlt : (m + 1) / 10 < m + 1 := Nat.div_lt_self (Nat.succ_pos m) (by decide)
      have hd : (m + 1) % 10 < 10 := Nat.mod_lt _ (by decide)
      simp only [natDecAux]
      rw [natDecAux_append]
      unfold decVal
      rw [List.foldl_append]
      simp only [List.foldl_cons, List.foldl_nil]
      rcases Nat.eq_zero_or_pos ((m + 1) / 10) with hq | hq
      · rw [hq]
        simp only [natDecAux, List.foldl_nil]
        unfold decStep
        rw [digitChar_toNat _ hd]
        have hlt10 : m + 1 < 10 := (Nat.div_eq_zero_iff (by decide)).mp hq
        omega
      · have hih := ih _ hlt hq
        unfold decVal at hih
        rw [hih]
        unfold decStep
        rw [digitChar_toNat _ hd]
        omega

theorem decVal_natDec (n : Nat) : decVal (natDec n) = n := by
  rcases Nat.eq_zero_or_pos n with h | h
  · subst h
    decide
  · rw [natDec, if_neg (Nat.pos_iff_ne_zero.mp h)]
    exact decVal_natDecAux n h

theorem natDec_inj {a b : Nat} (h : natDec a = natDec b) : a = b := by
  have hv := congrArg decVal h
  rwa [decVal_natDec, decVal_natDec] at hv

theorem usep_not_mem_natDecAux (n : Nat) :
    ∀ acc : List Char, usep ∉ acc → usep ∉ natDecAux n acc := by
  induction n using Nat.strong_induction_on with
  | _ n ih =>
    intro acc hacc
    rcases n with _ | m
    · simpa [natDecAux] using hacc
    · have hlt : (m + 1) / 10 < m + 1 := Nat.div_lt_self (Nat.succ_pos m) (by decide)
      have hd : (m + 1) % 10 < 10 := Nat.mod_lt _ (by decide)
      simp only [natDecAux]
      apply ih _ hlt
      intro hmem
      rcases List.mem_cons.mp hmem with hh | hh
      · exact digitChar_ne_usep _ hd hh.symm
      · exact hacc hh

theorem usep_not_mem_natDec (n : Nat) : usep ∉ natDec n := by
  rcases Nat.eq_zero_or_pos n with h | h
  · subst h
    decide
  · rw [natDec, if_neg (Nat.pos_iff_ne_zero.mp h)]
    exact usep_not_mem_natDecAux n [] (by simp)

theorem append_usep_inj :
    ∀ a c b d : List Char, usep ∉ a → usep ∉ c →
      a ++ usep :: b = c ++ usep :: d → a = c ∧ b = d := by
  intro a
  induction a with
  | nil =>
    intro c b d _ hc h
    cases c with
    | nil =>
      rw [List.nil_append, List.nil_append] at h
      injection h with _ h2
      exact ⟨rfl, h2⟩
    | cons y ys =>
      rw [List.nil_append, List.cons_append] at h
      injection h with h1 _
      rw [← h1] at hc
      exact absurd (List.mem_cons_self _ _) hc
  | cons x xs ih =>
    intro c b d ha hc h
    cases c with
    | nil =>
      rw [List.nil_append, List.cons_append] at h
      injection h with h1 _
      rw [h1] at ha
      exact absurd (List.mem_cons_self _ _) ha
    | cons y ys =>
      rw [List.cons_append, List.cons_append] at h
      injection h with h1 h2
      have hxs : usep ∉ xs := fun hm => ha (List.mem_cons_of_mem _ hm)
      have hys : usep ∉ ys := fun hm => hc (List.mem_cons_of_mem _ hm)
      obtain ⟨e1, e2⟩ := ih ys b d hxs hys h2
      exact ⟨by rw [h1, e1], e2⟩

theorem output_name_inj {g r i g2 r2 i2 : Nat}
    (h : output_name g r i = output_name g2 r2 i2) :
    g = g2 ∧ r = r2 ∧ i = i2 := by
  unfold output_name at h
  rw [List.append_assoc, List.append_assoc] at h
  have h0 := List.append_cancel_left h
  obtain ⟨e1, h1⟩ := append_usep_inj _ _ _ _
    (usep_not_mem_natDec g) (usep_not_mem_natDec g2) h0
  obtain ⟨e2, h2⟩ := append_usep_inj _ _ _ _
    (usep_not_mem_natDec r) (usep_not_mem_natDec r2) h1
  obtain ⟨e3, _⟩ := append_usep_inj _ _ _ _
    (usep_not_mem_natDec i) (usep_not_mem_natDec i2) h2
  exact ⟨natDec_inj e1, natDec_inj e2, natDec_inj e3⟩

/-! ## Claims C7 and C8 about the group-processing loop -/

/-- C7: two make_river_map invocations that differ in global group id, worker
rank or local group ordinal receive distinct output name strings, so two
distinct invocations cannot produce colliding filenames in the shared output
directory. -/
theorem claim_C7_output_names_distinct (g r i g2 r2 i2 : Nat)
    (h : (g, r, i) ≠ (g2, r2, i2)) :
    output_name_str g r i ≠ output_name_str g2 r2 i2 := by
  intro he
  apply h
  have hdata : output_name g r i = output_name g2 r2 i2 :=
    congrArg String.data he
  obtain ⟨e1, e2, e3⟩ := output_name_inj hdata
  rw [e1, e2, e3]

/-- Witness for C7: same group id and swapped rank and ordinal still give
distinct names. -/
theorem claim_C7_output_names_distinct_witness :
    ((0, 0, 1) : Nat × Nat × Nat) ≠ (0, 1, 0) ∧
    output_name_str 0 0 1 ≠ output_name_str 0 1 0 :=
  ⟨by decide, claim_C7_output_names_distinct 0 0 1 0 1 0 (by decide)⟩

/-- C8: when the three per-rank lists have equal length (as produced by
applying the same mask to the group arrays), the loop issues exactly one
make_river_map invocation per assigned group, and the j-th invocation receives
the j-th group's tile-file list unchanged, the empty list included, together
with its thalwegs and its output name: no assigned group is dropped. -/
theorem claim_C8_every_group_processed (rank : Nat) (ids : List Nat)
    (tgs : List (List (Option String))) (ths : List (List Nat))
    (h1 : tgs.length = ids.length) (h2 : ths.length = ids.length) :
    (process_groups rank ids tgs ths).length = ids.length ∧
    ∀ j, j < ids.length →
      ((process_groups rank ids tgs ths).getD j ⟨[], [], []⟩).tif_fnames =
          tgs.getD j [] ∧
      ((process_groups rank ids tgs ths).getD j ⟨[], [], []⟩).selected_thalweg =
          ths.getD j [] ∧
      ((process_groups rank ids tgs ths).getD j ⟨[], [], []⟩).out_name =
          output_name (ids.getD j 0) rank j := by
  have hpg : process_groups rank ids tgs ths =
      ((ids.zip (tgs.zip ths)).enum).map fun p =>
        { tif_fnames := p.2.2.1, selected_thalweg := p.2.2.2,
          out_name := output_name p.2.1 rank p.1 } := by
    unfold process_groups
    simp only [if_true]
    induction (ids.zip (tgs.zip ths)).enum with
    | nil => rfl
    | cons p ps ih => simp only [List.flatMap_cons, ih, List.map_cons,
        List.singleton_append]
  have hzlen : (ids.zip (tgs.zip ths)).length = ids.length := by
    rw [List.length_zip, List.length_zip, h1, h2, Nat.min_self, Nat.min_self]
  have hlen : (process_groups rank ids tgs ths).length = ids.length := by
    rw [hpg, List.length_map, List.enum_length, hzlen]
  refine ⟨hlen, ?_⟩
  intro j hj
  have hj1 : j < tgs.length := by rw [h1]; exact hj
  have hj2 : j < ths.length := by rw [h2]; exact hj
  have hean : j < ((((ids.zip (tgs.zip ths)).enum).map fun p =>
      ({ tif_fnames := p.2.2.1, selected_thalweg := p.2.2.2,
         out_name := output_name p.2.1 rank p.1 } : RiverMapCall)).length) := by
    rw [List.length_map, List.enum_length, hzlen]
    exact hj
  rw [hpg, List.getD_eq_getElem _ _ hean, List.getD_eq_getElem _ _ hj1,
    List.getD_eq_getElem _ _ hj2, List.getD_eq_getElem _ _ hj]
  simp [List.getElem_map, List.getElem_enum, List.getElem_zip]

/-- Witness for C8: one assigned group whose tile-file list is empty is still
invoked, with the empty tile-file list. -/
theorem claim_C8_every_group_processed_witness :
    (([[]] : List (List (Option String))).length = ([5] : List Nat).length ∧
      ([[2]] : List (List Nat)).length = ([5] : List Nat).length) ∧
    ((process_groups 0 [5] [[]] [[2]]).length = ([5] : List Nat).length ∧
      ∀ j, j < ([5] : List Nat).length →
        ((process_groups 0 [5] [[]] [[2]]).getD j ⟨[], [], []⟩).tif_fnames =
            ([[]] : List (List (Option String))).getD j [] ∧
        ((process_groups 0 [5] [[]] [[2]]).getD j ⟨[], [], []⟩).selected_thalweg =
            ([[2]] : List (List Nat)).getD j [] ∧
        ((process_groups 0 [5] [[]] [[2]]).getD j ⟨[], [], []⟩).out_name =
            output_name (([5] : List Nat).getD j 0) 0 j) :=
  ⟨⟨rfl, rfl⟩, claim_C8_every_group_processed 0 [5] [[]] [[2]] rfl rfl⟩

end RiverMapper
